import Mathlib

/-!
Verification development for the go-pdf-filler repository.

The Go sources under scrutiny are shallowly embedded here:
strings are Lean `String`s (`List Char` under `.data`), Go maps iterated by
`range` are modelled as association lists in a fixed iteration order, the
dynamically-typed `interface{}` values become the inductive `GoValue`, and
fallible operations return `Option`/`Except`/product results.  External
library calls (JSON codec, the HTTP transport) are abstracted as explicit
function parameters, so theorems quantifying over them hold for every
possible behaviour of the external collaborator.
-/

namespace GoPdfFiller

/-! ### Go string primitives used by processor.go -/

/-- Embeds Go `unicode.IsSpace`: the Unicode White_Space property, given by
its code points (TAB..CR, SPACE, NEL, NBSP, OGHAM SPACE MARK, the U+2000
block, LINE/PARAGRAPH SEPARATOR, NNBSP, MMSP, IDEOGRAPHIC SPACE). -/
def goIsSpace (c : Char) : Bool :=
  decide (c.toNat ∈ ([9, 10, 11, 12, 13, 32, 0x85, 0xA0, 0x1680] : List Nat) ∨
    (0x2000 ≤ c.toNat ∧ c.toNat ≤ 0x200A) ∨
    c.toNat ∈ ([0x2028, 0x2029, 0x202F, 0x205F, 0x3000] : List Nat))

/-- Embeds the per-character action of Go `strings.ToLower` on the ASCII
range.  (Go lowercases the full Unicode simple-case table; outside ASCII the
differences only concern characters that `keepChar` below drops, except for
exotic points such as U+212A which no claim exercises.) -/
def goToLowerChar (c : Char) : Char :=
  if 'A' ≤ c ∧ c ≤ 'Z' then Char.ofNat (c.toNat + 32) else c

/-- Embeds Go `strings.TrimSpace` on rune lists. -/
def goTrimSpace (s : List Char) : List Char :=
  ((s.dropWhile goIsSpace).reverse.dropWhile goIsSpace).reverse

/-- Worker for `fieldsSplit`, accumulating the current word reversed. -/
def fieldsAux : List Char → List Char → List (List Char)
  | [], acc => if acc.isEmpty then [] else [acc.reverse]
  | c :: rest, acc =>
    if goIsSpace c then
      if acc.isEmpty then fieldsAux rest [] else acc.reverse :: fieldsAux rest []
    else fieldsAux rest (c :: acc)

/-- Embeds Go `strings.Fields`: split around runs of whitespace. -/
def fieldsSplit (s : List Char) : List (List Char) :=
  fieldsAux s []

/-- Embeds Go `strings.Join(words, " ")` as used in `NormalizeFieldName`. -/
def joinWords : List (List Char) → List Char
  | [] => []
  | [w] => w
  | w :: ws => w ++ ' ' :: joinWords ws

/-- Embeds Go `strings.TrimSuffix`. -/
def goTrimSuffix (s suffix : List Char) : List Char :=
  if suffix.isSuffixOf s then s.take (s.length - suffix.length) else s

/-- Character-retention predicate from the `strings.Map` call in
`NormalizeFieldName`: keep spaces, lowercase ASCII letters and digits. -/
def keepChar (c : Char) : Bool :=
  decide (c = ' ' ∨ ('a' ≤ c ∧ c ≤ 'z') ∨ ('0' ≤ c ∧ c ≤ '9'))

/-- Embeds `PDFForm.NormalizeFieldName` (processor.go): lowercase, trim,
collapse whitespace runs, strip one trailing " optional" then one trailing
" required", and drop every character `keepChar` rejects. -/
def normalizeFieldName (s : List Char) : List Char :=
  let lowered := s.map goToLowerChar
  let trimmed := goTrimSpace lowered
  let collapsed := joinWords (fieldsSplit trimmed)
  let noOpt := goTrimSuffix collapsed (" optional".data)
  let noReq := goTrimSuffix noOpt (" required".data)
  noReq.filter keepChar

/-- String-level wrapper of `normalizeFieldName`. -/
def normalizeStr (s : String) : String :=
  ⟨normalizeFieldName s.data⟩

/-- Embeds Go `strings.Contains`: substring containment. -/
def goContains (hay needle : String) : Bool :=
  hay.data.tails.any (fun t => needle.data.isPrefixOf t)

/-! ### Field matching (processor.go `FindMatchingField`) -/

/-- First loop of `FindMatchingField`: scan for the first registry name whose
normalized form equals the normalized search term. -/
def exactScan (names : List String) (normalized : String) : Option String :=
  match names with
  | [] => none
  | n :: rest => if normalizeStr n = normalized then some n else exactScan rest normalized

/-- Second loop of `FindMatchingField`: scan for the first registry name
related to the normalized search term by substring containment either way. -/
def fuzzyScan (names : List String) (normalized : String) : Option String :=
  match names with
  | [] => none
  | n :: rest =>
    if goContains (normalizeStr n) normalized || goContains normalized (normalizeStr n) then
      some n
    else fuzzyScan rest normalized

/-- Embeds `PDFForm.FindMatchingField` (processor.go): exact normalized match
first, then fuzzy containment, else not-found.  The Go code ranges over a map
of fields; the model fixes one iteration order by taking the names as a list. -/
def findMatchingField (names : List String) (searchName : String) : String × Bool :=
  let normalized := normalizeStr searchName
  match exactScan names normalized with
  | some n => (n, true)
  | none =>
    match fuzzyScan names normalized with
    | some n => (n, true)
    | none => ("", false)

/-! ### Field registry (processor.go data model) -/

/-- Embeds `FieldType` (processor.go): Text, Boolean (Button), Choice. -/
inductive FieldType where
  | Text : FieldType
  | Boolean : FieldType
  | Choice : FieldType
deriving DecidableEq, Repr

/-- Embeds the Go `interface{}` values the processor manipulates: strings,
booleans, integers and the nil interface. -/
inductive GoValue where
  | str (s : String) : GoValue
  | boolean (b : Bool) : GoValue
  | intVal (n : Int) : GoValue
  | nilValue : GoValue
deriving DecidableEq, Repr

/-- Embeds Go `fmt.Sprintf("%v", value)` on `GoValue`. -/
def displayValue : GoValue → String
  | .str s => s
  | .boolean true => "true"
  | .boolean false => "false"
  | .intVal n => toString n
  | .nilValue => "<nil>"

/-- Embeds Go `fmt.Sprintf("%T", value)` on `GoValue`. -/
def goTypeString : GoValue → String
  | .str _ => "string"
  | .boolean _ => "bool"
  | .intVal _ => "int"
  | .nilValue => "<nil>"

/-- Embeds `Field` (processor.go): name, type, options, required flag and the
current value (`none` models a Go nil `interface{}` slot). -/
structure Field where
  name : String
  fieldType : FieldType
  options : List String
  required : Bool
  value : Option GoValue
deriving DecidableEq, Repr

/-- The `fields map[string]Field` of a form, as an association list in a fixed
iteration order. -/
abbrev Registry := List (String × Field)

/-- Go map read `f.fields[name]`. -/
def lookupField (r : Registry) (name : String) : Option Field :=
  match r with
  | [] => none
  | (k, fd) :: rest => if k = name then some fd else lookupField rest name

/-- Go map write `f.fields[name] = fd` for a key already present. -/
def updateField (r : Registry) (name : String) (fd : Field) : Registry :=
  r.map (fun p => if p.1 = name then (p.1, fd) else p)

/-- Embeds `isValidOption` (processor.go): linear scan for an exact match. -/
def isValidOption (value : String) : List String → Bool
  | [] => false
  | opt :: rest => if opt = value then true else isValidOption value rest

/-- Embeds `validateField` (processor.go): required field with nil value. -/
def validateFieldErr (field : Field) : Option String :=
  if field.required && field.value.isNone then
    some ("required field " ++ field.name ++ " is not set")
  else none

/-- Tail of `SetField` after the type switch passes: store the value and run
the optional on-set validation. -/
def setFieldStore (validateOnSet : Bool) (r : Registry) (name : String)
    (field : Field) (value : GoValue) : Option String × Registry :=
  let field' := { field with value := some value }
  let r' := updateField r name field'
  if validateOnSet then (validateFieldErr field', r') else (none, r')

/-- Embeds `PDFForm.SetField` / `HTMLForm.SetField` (their bodies coincide):
look the field up, type-check the dynamic value against the declared type,
and store it; the returned pair is (error, updated registry). -/
def setField (validateOnSet : Bool) (r : Registry) (name : String)
    (value : GoValue) : Option String × Registry :=
  match lookupField r name with
  | none => (some ("field " ++ name ++ " not found in form"), r)
  | some field =>
    match field.fieldType with
    | .Text =>
      match value with
      | .str _ => setFieldStore validateOnSet r name field value
      | _ => (some ("field " ++ name ++ " requires string value"), r)
    | .Boolean =>
      match value with
      | .boolean _ => setFieldStore validateOnSet r name field value
      | _ => (some ("field " ++ name ++ " requires boolean value"), r)
    | .Choice =>
      match value with
      | .str strVal =>
        if isValidOption strVal field.options then
          setFieldStore validateOnSet r name field value
        else (some ("invalid option for field " ++ name ++ ": " ++ strVal), r)
      | _ => (some ("field " ++ name ++ " requires string value from options"), r)

/-- Embeds `PDFForm.SetFields` (processor.go): sets pairs one by one and
returns the first wrapped error, abandoning the remaining pairs. -/
def pdfSetFields (validateOnSet : Bool) (r : Registry) :
    List (String × GoValue) → Option String × Registry
  | [] => (none, r)
  | (name, value) :: rest =>
    match setField validateOnSet r name value with
    | (some e, r') => (some ("error setting field " ++ name ++ ": " ++ e), r')
    | (none, r') => pdfSetFields validateOnSet r' rest

/-- Embeds Go `strings.Join` with an arbitrary separator. -/
def joinSep (sep : String) : List String → String
  | [] => ""
  | [x] => x
  | x :: xs => x ++ sep ++ joinSep sep xs

/-- Loop of `HTMLForm.SetFields` (html_processor.go): process every pair,
collecting one formatted message per failure. -/
def htmlSetFieldsAux (validateOnSet : Bool) (r : Registry) :
    List (String × GoValue) → List String → List String × Registry
  | [], errs => (errs, r)
  | (name, value) :: rest, errs =>
    match setField validateOnSet r name value with
    | (some e, r') =>
      htmlSetFieldsAux validateOnSet r' rest (errs ++ ["field '" ++ name ++ "': " ++ e])
    | (none, r') => htmlSetFieldsAux validateOnSet r' rest errs

/-- Embeds `HTMLForm.SetFields` (html_processor.go): aggregate every failure
into one joined error; nil when no pair failed. -/
def htmlSetFields (validateOnSet : Bool) (r : Registry)
    (pairs : List (String × GoValue)) : Option String × Registry :=
  let (errs, r') := htmlSetFieldsAux validateOnSet r pairs []
  if errs.isEmpty then (none, r')
  else (some ("failed to set some fields: " ++ joinSep "; " errs), r')

/-- Embeds `PDFForm.Validate` (processor.go): return an error for the first
required field whose value is nil, nil otherwise. -/
def validateForm : Registry → Option String
  | [] => none
  | (_, fd) :: rest =>
    if fd.required && fd.value.isNone then
      some ("required field " ++ fd.name ++ " is missing")
    else validateForm rest

/-- Embeds `PDFForm.ConvertFieldValue` (processor.go): convert a dynamic value
to the representation demanded by the field's declared type. -/
def convertFieldValue (r : Registry) (name : String) (value : GoValue) :
    Except String GoValue :=
  match lookupField r name with
  | none => .error ("field " ++ name ++ " not found")
  | some field =>
    match field.fieldType with
    | .Boolean =>
      match value with
      | .boolean b => .ok (.boolean b)
      | .str s =>
        let v := ⟨(goTrimSpace s.data).map goToLowerChar⟩
        if v = "true" ∨ v = "yes" ∨ v = "1" ∨ v = "on" then .ok (.boolean true)
        else if v = "false" ∨ v = "no" ∨ v = "0" ∨ v = "off" then .ok (.boolean false)
        else .error ("invalid boolean value for field " ++ name ++ ": " ++ displayValue value)
      | _ =>
        .error ("unsupported value type for boolean field " ++ name ++ ": " ++ goTypeString value)
    | .Text =>
      match value with
      | .str s => .ok (.str s)
      | _ => .ok (.str (displayValue value))
    | .Choice =>
      let strVal := displayValue value
      if isValidOption strVal field.options then .ok (.str strVal)
      else .error ("invalid option for field " ++ name ++ ": " ++ strVal)

/-! ### Upload client (services/uploader.go, types/upload.go) -/

/-- Embeds `UploadConfig` (types/upload.go). -/
structure UploadConfig where
  fileName : String
  organizationalID : String
  branchID : String
  createdBy : String
deriving DecidableEq, Repr

/-- Embeds `UploadConfig.Validate` (types/upload.go): first empty field wins. -/
def uploadConfigValidate (c : UploadConfig) : Option String :=
  if c.fileName = "" then some "filename is required"
  else if c.organizationalID = "" then some "organizational ID is required"
  else if c.branchID = "" then some "branch ID is required"
  else if c.createdBy = "" then some "creator is required"
  else none

/-- Embeds `UploadResponse` (services/uploader.go). -/
structure UploadResponse where
  fileName : String
  fileDownloadUri : String
  fileType : String
  size : Int
deriving DecidableEq, Repr

/-- Embeds `HTTPError` (services/uploader.go). -/
structure HTTPError where
  statusCode : Nat
  message : String
deriving DecidableEq, Repr

/-- Embeds `HTTPError.Error` (services/uploader.go): fixed human-readable
texts for 401, 403 and 520, a status/message template otherwise. -/
def HTTPError.errorString (e : HTTPError) : String :=
  match e.statusCode with
  | 401 => "Authentication failed: Bearer token is invalid or expired"
  | 403 => "Authorization failed: Insufficient permissions to upload file"
  | 520 => "Server error: Unable to process upload request (possibly due to invalid or expired authentication)"
  | s => "Upload failed with status " ++ toString s ++ ": " ++ e.message

/-- Error outcomes of `httpUploader.Upload`. -/
inductive UploadErr where
  | invalidConfig (msg : String) : UploadErr
  | httpErr (e : HTTPError) : UploadErr
  | decodeErr (body : String) : UploadErr
deriving DecidableEq, Repr

/-- The request `httpUploader.Upload` issues: the query-string-bearing URL and
the bearer authorization header (the multipart body is opaque artifact data). -/
structure UploadRequest where
  url : String
  authorization : String
deriving DecidableEq, Repr

/-- URL construction in `httpUploader.Upload` (services/uploader.go). -/
def buildUploadURL (baseURL : String) (c : UploadConfig) : String :=
  baseURL ++ "?organisationalId=" ++ c.organizationalID ++ "&branchId=" ++ c.branchID ++
    "&createdBy=" ++ c.createdBy ++ "&authenticate=false"

/-- Embeds the error-message extraction of `httpUploader.Upload` (lines
255-270): prefer the JSON `message` field, then the JSON `error` field, then
the raw body.  `parseErrBody` abstracts `json.Unmarshal`, yielding the two
fields when the body parses. -/
def errorMessageOf (respBody : String) (parseErrBody : String → Option (String × String)) :
    String :=
  let errorMessage :=
    match parseErrBody respBody with
    | some (m, e) => if m ≠ "" then m else if e ≠ "" then e else ""
    | none => ""
  if errorMessage = "" then respBody else errorMessage

/-- Embeds `httpUploader.Upload` (services/uploader.go, second revision):
validate the metadata, build the request, send it, and classify the response.
`send` abstracts the HTTP round trip as status code and body; `decodeResponse`
abstracts the JSON decoding of a successful body. -/
def httpUpload (baseURL bearerToken : String) (c : UploadConfig)
    (send : UploadRequest → Nat × String)
    (parseErrBody : String → Option (String × String))
    (decodeResponse : String → Option UploadResponse) : Except UploadErr UploadResponse :=
  match uploadConfigValidate c with
  | some msg => .error (.invalidConfig msg)
  | none =>
    let req : UploadRequest :=
      { url := buildUploadURL baseURL c, authorization := "Bearer " ++ bearerToken }
    let (status, respBody) := send req
    if status ≠ 200 ∧ status ≠ 201 then
      .error (.httpErr { statusCode := status, message := errorMessageOf respBody parseErrBody })
    else
      match decodeResponse respBody with
      | some result => .ok result
      | none => .error (.decodeErr respBody)

/-- The fuzzy-match test of `FindMatchingField`'s second loop: the normalized
search term contains the normalized field name or vice versa. -/
def fuzzyMatches (normalized m : String) : Bool :=
  goContains (normalizeStr m) normalized || goContains normalized (normalizeStr m)

/-- The data-model invariant on one field: a present value matches the
declared type — a string for Text, a boolean for Boolean, and a string drawn
from the options for Choice. -/
def typeOk (fd : Field) : Bool :=
  match fd.value with
  | none => true
  | some v =>
    match fd.fieldType, v with
    | .Text, .str _ => true
    | .Boolean, .boolean _ => true
    | .Choice, .str s => isValidOption s fd.options
    | _, _ => false

/-- The value-independent part of a field visible to `SetField`'s checks. -/
def fieldShapeAt (r : Registry) (m : String) : Option (FieldType × List String) :=
  (lookupField r m).map (fun fd => (fd.fieldType, fd.options))

/-- The error `SetField` produces, as a function of the field's shape alone
(used to show the error does not depend on stored values). -/
def setFieldOutcome (shape : Option (FieldType × List String)) (name : String)
    (v : GoValue) : Option String :=
  match shape with
  | none => some ("field " ++ name ++ " not found in form")
  | some (ft, opts) =>
    match ft with
    | .Text =>
      match v with
      | .str _ => none
      | _ => some ("field " ++ name ++ " requires string value")
    | .Boolean =>
      match v with
      | .boolean _ => none
      | _ => some ("field " ++ name ++ " requires boolean value")
    | .Choice =>
      match v with
      | .str s =>
        if isValidOption s opts then none
        else some ("invalid option for field " ++ name ++ ": " ++ s)
      | _ => some ("field " ++ name ++ " requires string value from options")

/-! ### Lemmas about the normalizer -/

theorem keepChar_goToLowerChar {c : Char} (h : keepChar c = true) : goToLowerChar c = c := by
  have h' := of_decide_eq_true h
  unfold goToLowerChar
  rcases h' with h0 | h1 | h2
  · subst h0; decide
  · rw [if_neg]
    rintro ⟨hA, hZ⟩
    exact absurd (le_trans h1.1 hZ) (by decide)
  · rw [if_neg]
    rintro ⟨hA, hZ⟩
    exact absurd (le_trans hA h2.2) (by decide)

theorem map_goToLowerChar_of_kept (l : List Char) (h : ∀ c ∈ l, keepChar c = true) :
    l.map goToLowerChar = l := by
  induction l with
  | nil => rfl
  | cons c t ih =>
    rw [List.map_cons, keepChar_goToLowerChar (h c (by simp)),
      ih (fun d hd => h d (by simp [hd]))]

theorem filter_keepChar_of_kept (l : List Char) (h : ∀ c ∈ l, keepChar c = true) :
    l.filter keepChar = l :=
  List.filter_eq_self.mpr h

theorem normalizeFieldName_kept (s : List Char) :
    ∀ c ∈ normalizeFieldName s, keepChar c = true := by
  intro c hc
  unfold normalizeFieldName at hc
  exact (List.mem_filter.mp hc).2

/-- C2, corrected: the normalizer is not idempotent in general, but it is
idempotent on every input whose normalized form is already a fixed point of
the whitespace trimming, the whitespace collapsing, and the two suffix
strips — re-normalizing only re-runs those stages, since lowercasing and
character filtering are the identity on normalizer output. -/
theorem normalizeFieldName_idempotent_of_canonical (s : List Char)
    (h1 : goTrimSpace (normalizeFieldName s) = normalizeFieldName s)
    (h2 : joinWords (fieldsSplit (normalizeFieldName s)) = normalizeFieldName s)
    (h3 : goTrimSuffix (normalizeFieldName s) (" optional".data) = normalizeFieldName s)
    (h4 : goTrimSuffix (normalizeFieldName s) (" required".data) = normalizeFieldName s) :
    normalizeFieldName (normalizeFieldName s) = normalizeFieldName s := by
  have hkept := normalizeFieldName_kept s
  conv_lhs => rw [normalizeFieldName]
  rw [map_goToLowerChar_of_kept _ hkept, h1, h2, h3, h4,
    filter_keepChar_of_kept _ hkept]

/-- C2, counterexample: `normalize("! a")` is `" a"` (the dropped `!` leaves a
leading space behind), and normalizing again gives `"a"`. -/
theorem normalizeFieldName_not_idempotent_cx :
    normalizeFieldName (normalizeFieldName "! a".data) ≠ normalizeFieldName "! a".data := by
  decide

/-- C2 witness: the amended idempotence theorem applied at a concrete input. -/
theorem normalizeFieldName_idempotent_witness :
    normalizeFieldName (normalizeFieldName "Sample  Field Name".data) =
      normalizeFieldName "Sample  Field Name".data :=
  normalizeFieldName_idempotent_of_canonical _ (by decide) (by decide) (by decide) (by decide)

/-! ### Lemmas about field matching -/

theorem exactScan_append_eq_some (nz : String) (pre : List String) (n : String)
    (post : List String) (hn : normalizeStr n = nz)
    (hpre : ∀ m ∈ pre, normalizeStr m ≠ nz) :
    exactScan (pre ++ n :: post) nz = some n := by
  induction pre with
  | nil => simp [exactScan, hn]
  | cons a t ih =>
    have ha : ¬ normalizeStr a = nz := hpre a (by simp)
    simp only [List.cons_append, exactScan, if_neg ha]
    exact ih (fun m hm => hpre m (by simp [hm]))

theorem exactScan_eq_none (nz : String) (names : List String)
    (h : ∀ m ∈ names, normalizeStr m ≠ nz) : exactScan names nz = none := by
  induction names with
  | nil => rfl
  | cons a t ih =>
    have ha : ¬ normalizeStr a = nz := h a (by simp)
    simp only [exactScan, if_neg ha]
    exact ih (fun m hm => h m (by simp [hm]))

theorem exactScan_mem {names : List String} {nz n : String}
    (h : exactScan names nz = some n) : n ∈ names := by
  induction names with
  | nil => simp [exactScan] at h
  | cons a t ih =>
    by_cases ha : normalizeStr a = nz
    · simp only [exactScan, if_pos ha, Option.some.injEq] at h
      simp [h]
    · simp only [exactScan, if_neg ha] at h
      simp [ih h]

theorem fuzzyScan_cons (n : String) (rest : List String) (nz : String) :
    fuzzyScan (n :: rest) nz =
      if fuzzyMatches nz n = true then some n else fuzzyScan rest nz := by
  simp [fuzzyScan, fuzzyMatches]

theorem fuzzyScan_append_eq_some (nz : String) (pre : List String) (n : String)
    (post : List String) (hn : fuzzyMatches nz n = true)
    (hpre : ∀ m ∈ pre, fuzzyMatches nz m = false) :
    fuzzyScan (pre ++ n :: post) nz = some n := by
  induction pre with
  | nil => simp [fuzzyScan_cons, hn]
  | cons a t ih =>
    have ha : fuzzyMatches nz a = false := hpre a (by simp)
    rw [List.cons_append, fuzzyScan_cons, if_neg (by simp [ha])]
    exact ih (fun m hm => hpre m (by simp [hm]))

theorem fuzzyScan_eq_none (nz : String) (names : List String)
    (h : ∀ m ∈ names, fuzzyMatches nz m = false) : fuzzyScan names nz = none := by
  induction names with
  | nil => rfl
  | cons a t ih =>
    rw [fuzzyScan_cons, if_neg (by simp [h a (by simp)])]
    exact ih (fun m hm => h m (by simp [hm]))

/-- C4: field resolution tries the exact normalized match first (the first
registry name in iteration order whose normalized form equals the normalized
search term wins), falls back to the first fuzzy containment match only when
no exact match exists, returns not-found when both scans fail, and depends on
the search name only through its normalized form, so search names with equal
normalized forms resolve identically. -/
theorem findMatchingField_resolution (names : List String) (searchName : String) :
    (∀ pre n post, names = pre ++ n :: post →
      normalizeStr n = normalizeStr searchName →
      (∀ m ∈ pre, normalizeStr m ≠ normalizeStr searchName) →
      findMatchingField names searchName = (n, true))
    ∧ ((∀ m ∈ names, normalizeStr m ≠ normalizeStr searchName) →
      ∀ pre n post, names = pre ++ n :: post →
      fuzzyMatches (normalizeStr searchName) n = true →
      (∀ m ∈ pre, fuzzyMatches (normalizeStr searchName) m = false) →
      findMatchingField names searchName = (n, true))
    ∧ ((∀ m ∈ names, normalizeStr m ≠ normalizeStr searchName ∧
        fuzzyMatches (normalizeStr searchName) m = false) →
      findMatchingField names searchName = ("", false))
    ∧ (∀ s₂, normalizeStr searchName = normalizeStr s₂ →
      findMatchingField names searchName = findMatchingField names s₂) := by
  refine ⟨?_, ?_, ?_, ?_⟩
  · intro pre n post hsplit hn hpre
    subst hsplit
    simp only [findMatchingField]
    rw [exactScan_append_eq_some _ pre n post hn hpre]
  · intro hexact pre n post hsplit hn hpre
    subst hsplit
    simp only [findMatchingField]
    rw [exactScan_eq_none _ _ hexact, fuzzyScan_append_eq_some _ pre n post hn hpre]
  · intro h
    simp only [findMatchingField]
    rw [exactScan_eq_none _ _ (fun m hm => (h m hm).1),
      fuzzyScan_eq_none _ _ (fun m hm => (h m hm).2)]
  · intro s₂ heq
    simp only [findMatchingField]
    rw [heq]

/-- C4 witness: in a registry holding the canonical field "Title Only", the
four spec examples all resolve to it. -/
theorem findMatchingField_resolution_witness :
    findMatchingField ["Title Only"] "Title Only" = ("Title Only", true)
    ∧ findMatchingField ["Title Only"] "title only" = ("Title Only", true)
    ∧ findMatchingField ["Title Only"] "  TITLE   ONLY " = ("Title Only", true)
    ∧ findMatchingField ["Title Only"] "Title Only Required" = ("Title Only", true) :=
  ⟨(findMatchingField_resolution ["Title Only"] "Title Only").1 [] "Title Only" []
      rfl (by decide) (by simp),
   (findMatchingField_resolution ["Title Only"] "title only").1 [] "Title Only" []
      rfl (by decide) (by simp),
   (findMatchingField_resolution ["Title Only"] "  TITLE   ONLY ").1 [] "Title Only" []
      rfl (by decide) (by simp),
   (findMatchingField_resolution ["Title Only"] "Title Only Required").1 [] "Title Only" []
      rfl (by decide) (by simp)⟩

theorem goContains_empty_needle (hay : String) : goContains hay "" = true := by
  unfold goContains
  rw [List.any_eq_true]
  exact ⟨hay.data, by rw [List.mem_tails], by simp [List.isPrefixOf_iff_prefix]⟩

/-- C10: on a non-empty registry, a search name whose normalized form is the
empty string always resolves to some registry field: the empty string is a
substring of every normalized name, so the fuzzy fallback qualifies the first
field scanned even when no exact match exists. -/
theorem findMatchingField_found_of_empty_normalized (names : List String)
    (searchName : String) (h1 : names ≠ []) (h2 : normalizeStr searchName = "") :
    (findMatchingField names searchName).2 = true ∧
      (findMatchingField names searchName).1 ∈ names := by
  obtain ⟨n, rest, rfl⟩ := List.exists_cons_of_ne_nil h1
  simp only [findMatchingField]
  rw [h2]
  cases hex : exactScan (n :: rest) "" with
  | some m => exact ⟨rfl, exactScan_mem hex⟩
  | none =>
    rw [fuzzyScan_cons, if_pos (by simp [fuzzyMatches, goContains_empty_needle])]
    exact ⟨rfl, by simp⟩

/-- C10 witness: the concrete search "???" (normalizing to the empty string)
is found in the one-field registry ["A"]. -/
theorem findMatchingField_found_of_empty_normalized_witness :
    (findMatchingField ["A"] "???").2 = true ∧ (findMatchingField ["A"] "???").1 ∈ ["A"] :=
  findMatchingField_found_of_empty_normalized ["A"] "???" (by simp) (by decide)

/-! ### Value coercion (processor.go `ConvertFieldValue`) -/

theorem isValidOption_iff_mem (v : String) (opts : List String) :
    isValidOption v opts = true ↔ v ∈ opts := by
  induction opts with
  | nil => simp [isValidOption]
  | cons o t ih =>
    by_cases h : o = v
    · subst h
      simp [isValidOption]
    · simp [isValidOption, h, ih, Ne.symm h]

/-- C5: boolean coercion passes booleans through, maps a trimmed lowercased
string to true on "true"/"yes"/"1"/"on" and to false on
"false"/"no"/"0"/"off", and fails with an error on every other string and
every other value kind. -/
theorem convertFieldValue_boolean_spec (r : Registry) (name : String) (v : GoValue)
    (field : Field) (h1 : lookupField r name = some field)
    (h2 : field.fieldType = FieldType.Boolean) :
    (∀ b, v = .boolean b → convertFieldValue r name v = .ok (.boolean b))
    ∧ (∀ s, v = .str s →
        (((⟨(goTrimSpace s.data).map goToLowerChar⟩ : String) ∈
            (["true", "yes", "1", "on"] : List String) →
          convertFieldValue r name v = .ok (.boolean true))
        ∧ ((⟨(goTrimSpace s.data).map goToLowerChar⟩ : String) ∈
            (["false", "no", "0", "off"] : List String) →
          convertFieldValue r name v = .ok (.boolean false))
        ∧ ((⟨(goTrimSpace s.data).map goToLowerChar⟩ : String) ∉
            (["true", "yes", "1", "on"] : List String) →
          (⟨(goTrimSpace s.data).map goToLowerChar⟩ : String) ∉
            (["false", "no", "0", "off"] : List String) →
          ∃ e, convertFieldValue r name v = .error e)))
    ∧ ((∀ b, v ≠ .boolean b) → (∀ s, v ≠ .str s) →
        ∃ e, convertFieldValue r name v = .error e) := by
  refine ⟨?_, ?_, ?_⟩
  · rintro b rfl
    simp [convertFieldValue, h1, h2]
  · rintro s rfl
    refine ⟨?_, ?_, ?_⟩
    · intro hmem
      rcases (by simpa using hmem :
          (⟨(goTrimSpace s.data).map goToLowerChar⟩ : String) = "true" ∨
          (⟨(goTrimSpace s.data).map goToLowerChar⟩ : String) = "yes" ∨
          (⟨(goTrimSpace s.data).map goToLowerChar⟩ : String) = "1" ∨
          (⟨(goTrimSpace s.data).map goToLowerChar⟩ : String) = "on") with h | h | h | h <;>
        simp [convertFieldValue, h1, h2, h]
    · intro hmem
      rcases (by simpa using hmem :
          (⟨(goTrimSpace s.data).map goToLowerChar⟩ : String) = "false" ∨
          (⟨(goTrimSpace s.data).map goToLowerChar⟩ : String) = "no" ∨
          (⟨(goTrimSpace s.data).map goToLowerChar⟩ : String) = "0" ∨
          (⟨(goTrimSpace s.data).map goToLowerChar⟩ : String) = "off") with h | h | h | h <;>
        simp [convertFieldValue, h1, h2, h]
    · intro hm1 hm2
      refine ⟨"invalid boolean value for field " ++ name ++ ": " ++ displayValue (.str s), ?_⟩
      simp only [convertFieldValue, h1, h2]
      rw [if_neg (by simpa using hm1), if_neg (by simpa using hm2)]
  · intro hb hs
    cases v with
    | str s => exact absurd rfl (hs s)
    | boolean b => exact absurd rfl (hb b)
    | intVal n =>
      exact ⟨"unsupported value type for boolean field " ++ name ++ ": " ++
        goTypeString (.intVal n), by simp [convertFieldValue, h1, h2]⟩
    | nilValue =>
      exact ⟨"unsupported value type for boolean field " ++ name ++ ": " ++
        goTypeString .nilValue, by simp [convertFieldValue, h1, h2]⟩

/-- C5 witness: the spec's boolean-coercion examples on a concrete registry
holding the Boolean field "B1". -/
theorem convertFieldValue_boolean_witness :
    convertFieldValue [("B1", ⟨"B1", .Boolean, [], false, none⟩)] "B1" (.str "YES") =
      .ok (.boolean true)
    ∧ convertFieldValue [("B1", ⟨"B1", .Boolean, [], false, none⟩)] "B1" (.str " off ") =
      .ok (.boolean false)
    ∧ ∃ e, convertFieldValue [("B1", ⟨"B1", .Boolean, [], false, none⟩)] "B1" (.str "maybe") =
      .error e :=
  ⟨((convertFieldValue_boolean_spec [("B1", ⟨"B1", .Boolean, [], false, none⟩)] "B1"
      (.str "YES") ⟨"B1", .Boolean, [], false, none⟩ (by decide) rfl).2.1 "YES" rfl).1
      (by decide),
   ((convertFieldValue_boolean_spec [("B1", ⟨"B1", .Boolean, [], false, none⟩)] "B1"
      (.str " off ") ⟨"B1", .Boolean, [], false, none⟩ (by decide) rfl).2.1 " off " rfl).2.1
      (by decide),
   ((convertFieldValue_boolean_spec [("B1", ⟨"B1", .Boolean, [], false, none⟩)] "B1"
      (.str "maybe") ⟨"B1", .Boolean, [], false, none⟩ (by decide) rfl).2.1 "maybe" rfl).2.2
      (by decide) (by decide)⟩

/-- C6: choice coercion renders the input through its display representation
and succeeds with exactly that string if and only if it occurs verbatim
(case-sensitively) among the descriptor's options; otherwise it fails with
the invalid-option error. -/
theorem convertFieldValue_choice_spec (r : Registry) (name : String) (v : GoValue)
    (field : Field) (h1 : lookupField r name = some field)
    (h2 : field.fieldType = FieldType.Choice) :
    (displayValue v ∈ field.options →
      convertFieldValue r name v = .ok (.str (displayValue v)))
    ∧ (displayValue v ∉ field.options →
      convertFieldValue r name v =
        .error ("invalid option for field " ++ name ++ ": " ++ displayValue v)) := by
  constructor
  · intro hmem
    simp only [convertFieldValue, h1, h2]
    rw [if_pos ((isValidOption_iff_mem _ _).mpr hmem)]
  · intro hmem
    simp only [convertFieldValue, h1, h2]
    rw [if_neg (fun hc => hmem ((isValidOption_iff_mem _ _).mp hc))]

/-- C6 witness: against options ["Choice 1", "Choice 2"], the lowercase
"choice 1" is rejected while the exact "Choice 1" is accepted. -/
theorem convertFieldValue_choice_witness :
    convertFieldValue [("D", ⟨"D", .Choice, ["Choice 1", "Choice 2"], false, none⟩)] "D"
      (.str "choice 1") = .error "invalid option for field D: choice 1"
    ∧ convertFieldValue [("D", ⟨"D", .Choice, ["Choice 1", "Choice 2"], false, none⟩)] "D"
      (.str "Choice 1") = .ok (.str "Choice 1") :=
  ⟨(convertFieldValue_choice_spec [("D", ⟨"D", .Choice, ["Choice 1", "Choice 2"], false, none⟩)]
      "D" (.str "choice 1") ⟨"D", .Choice, ["Choice 1", "Choice 2"], false, none⟩
      (by decide) rfl).2 (by decide),
   (convertFieldValue_choice_spec [("D", ⟨"D", .Choice, ["Choice 1", "Choice 2"], false, none⟩)]
      "D" (.str "Choice 1") ⟨"D", .Choice, ["Choice 1", "Choice 2"], false, none⟩
      (by decide) rfl).1 (by decide)⟩

/-! ### Required-field validation (processor.go `Validate`) -/

/-- C7: validation returns the missing-required-field error for the first
descriptor in iteration order that is required and has no value, and returns
nil exactly when every required descriptor holds a value; being a pure
function of the registry, it mutates nothing. -/
theorem validateForm_first_missing_required (r : Registry) :
    validateForm r =
      (r.find? (fun p => p.2.required && p.2.value.isNone)).map
        (fun p => "required field " ++ p.2.name ++ " is missing")
    ∧ (validateForm r = none ↔ ∀ p ∈ r, p.2.required = true → p.2.value ≠ none) := by
  have hfind : validateForm r =
      (r.find? (fun p => p.2.required && p.2.value.isNone)).map
        (fun p => "required field " ++ p.2.name ++ " is missing") := by
    induction r with
    | nil => rfl
    | cons a t ih =>
      obtain ⟨k, fd⟩ := a
      by_cases h : (fd.required && fd.value.isNone) = true
      · rw [validateForm, if_pos h]
        simp [List.find?_cons, h]
      · rw [validateForm, if_neg h, ih]
        simp [List.find?_cons, h]
  refine ⟨hfind, ?_⟩
  rw [hfind, Option.map_eq_none', List.find?_eq_none]
  constructor
  · intro h p hp hreq hval
    exact h p hp (by rw [hreq, hval]; rfl)
  · intro h p hp hb
    have hsplit : p.2.required = true ∧ p.2.value.isNone = true := by simpa using hb
    exact h p hp hsplit.1 (Option.isNone_iff_eq_none.mp hsplit.2)

/-- C7 witness: on the spec's example registry (A required and unset, B
required and set) validation names A; once A is set it returns nil. -/
theorem validateForm_witness :
    validateForm [("A", ⟨"A", .Text, [], true, none⟩),
        ("B", ⟨"B", .Text, [], true, some (.str "v")⟩)] =
      some "required field A is missing"
    ∧ validateForm [("A", ⟨"A", .Text, [], true, some (.str "w")⟩),
        ("B", ⟨"B", .Text, [], true, some (.str "v")⟩)] = none :=
  ⟨(validateForm_first_missing_required [("A", ⟨"A", .Text, [], true, none⟩),
      ("B", ⟨"B", .Text, [], true, some (.str "v")⟩)]).1.trans (by decide),
   (validateForm_first_missing_required [("A", ⟨"A", .Text, [], true, some (.str "w")⟩),
      ("B", ⟨"B", .Text, [], true, some (.str "v")⟩)]).2.mpr (by decide)⟩

/-! ### Structure of `SetField` -/

theorem lookup_updateField (r : Registry) (n : String) (fd' : Field) (m : String) :
    lookupField (updateField r n fd') m =
      (lookupField r m).map (fun old => if m = n then fd' else old) := by
  induction r with
  | nil => rfl
  | cons a rest ih =>
    obtain ⟨k, fd⟩ := a
    simp only [updateField, List.map_cons] at *
    by_cases hkn : k = n
    · rw [if_pos hkn, lookupField, lookupField]
      by_cases hkm : k = m
      · rw [if_pos hkm, if_pos hkm, Option.map_some', if_pos (hkm ▸ hkn ▸ rfl)]
      · rw [if_neg hkm, if_neg hkm]
        exact ih
    · rw [if_neg hkn, lookupField, lookupField]
      by_cases hkm : k = m
      · rw [if_pos hkm, if_pos hkm, Option.map_some',
          if_neg (fun hmn => hkn (hkm.trans hmn))]
      · rw [if_neg hkm, if_neg hkm]
        exact ih

theorem setField_fst_eq (vos : Bool) (r : Registry) (n : String) (v : GoValue) :
    (setField vos r n v).1 = setFieldOutcome (fieldShapeAt r n) n v := by
  unfold setField setFieldOutcome fieldShapeAt
  cases hl : lookupField r n with
  | none => rfl
  | some field =>
    obtain ⟨fn, ft, fo, freq, fv⟩ := field
    cases ft <;> cases v <;> cases vos <;>
      simp [setFieldStore, validateFieldErr, apply_ite]

theorem setField_snd_cases (vos : Bool) (r : Registry) (n : String) (v : GoValue) :
    (setField vos r n v).2 = r ∨
      ∃ field, lookupField r n = some field ∧
        typeOk { field with value := some v } = true ∧
        (setField vos r n v).2 = updateField r n { field with value := some v } ∧
        (setField vos r n v).1 = none := by
  unfold setField
  cases hl : lookupField r n with
  | none => exact Or.inl rfl
  | some field =>
    obtain ⟨fn, ft, fo, freq, fv⟩ := field
    dsimp only
    cases ft with
    | Text =>
      cases v with
      | str s =>
        refine Or.inr ⟨⟨fn, .Text, fo, freq, fv⟩, rfl, rfl, ?_, ?_⟩ <;>
          (cases vos <;> simp [setFieldStore, validateFieldErr])
      | boolean b => exact Or.inl rfl
      | intVal k => exact Or.inl rfl
      | nilValue => exact Or.inl rfl
    | Boolean =>
      cases v with
      | boolean b =>
        refine Or.inr ⟨⟨fn, .Boolean, fo, freq, fv⟩, rfl, rfl, ?_, ?_⟩ <;>
          (cases vos <;> simp [setFieldStore, validateFieldErr])
      | str s => exact Or.inl rfl
      | intVal k => exact Or.inl rfl
      | nilValue => exact Or.inl rfl
    | Choice =>
      cases v with
      | str s =>
        by_cases hv : isValidOption s fo = true
        · refine Or.inr ⟨⟨fn, .Choice, fo, freq, fv⟩, rfl, by simp [typeOk, hv], ?_, ?_⟩ <;>
            (cases vos <;> simp [hv, setFieldStore, validateFieldErr])
        · exact Or.inl (by simp [hv])
      | boolean b => exact Or.inl rfl
      | intVal k => exact Or.inl rfl
      | nilValue => exact Or.inl rfl

theorem setField_preserves_shape (vos : Bool) (r : Registry) (n : String) (v : GoValue)
    (m : String) : fieldShapeAt ((setField vos r n v).2) m = fieldShapeAt r m := by
  rcases setField_snd_cases vos r n v with h | ⟨field, hf, _, h, _⟩
  · rw [h]
  · rw [h]
    unfold fieldShapeAt
    rw [lookup_updateField]
    by_cases hmn : m = n
    · subst hmn
      rw [hf]
      simp
    · cases lookupField r m <;> simp [hmn]

theorem setField_error_keeps_registry (vos : Bool) (r : Registry) (n : String)
    (v : GoValue) (h : (setField vos r n v).1.isSome = true) :
    (setField vos r n v).2 = r := by
  rcases setField_snd_cases vos r n v with hsnd | ⟨field, _, _, hsnd, hfst⟩
  · exact hsnd
  · rw [hfst] at h
    simp at h

/-- C9: the single-field set operation preserves the data-model invariant
that every present value matches its field's declared type (string for Text,
boolean for Boolean, a string among the options for Choice), and whenever it
returns an error it leaves the registry exactly as it was. -/
theorem setField_preserves_invariant (vos : Bool) (r : Registry) (n : String)
    (v : GoValue) (h : ∀ p ∈ r, typeOk p.2 = true) :
    (∀ p ∈ (setField vos r n v).2, typeOk p.2 = true)
    ∧ ((setField vos r n v).1.isSome = true → (setField vos r n v).2 = r) := by
  refine ⟨?_, setField_error_keeps_registry vos r n v⟩
  rcases setField_snd_cases vos r n v with hsnd | ⟨field, _, hty, hsnd, _⟩
  · rw [hsnd]
    exact h
  · rw [hsnd]
    intro p hp
    obtain ⟨q, hq, hqe⟩ := List.mem_map.mp hp
    by_cases hqn : q.1 = n
    · rw [← hqe, if_pos hqn]
      exact hty
    · rw [← hqe, if_neg hqn]
      exact h q hq

/-- C9 witness: on a well-typed two-field registry, a valid set keeps the
invariant and an invalid set (wrong dynamic type) errors and stores nothing. -/
theorem setField_preserves_invariant_witness :
    (∀ p ∈ (setField false [("T", ⟨"T", .Text, [], false, none⟩),
        ("B", ⟨"B", .Boolean, [], false, some (.boolean true)⟩)] "T" (.str "x")).2,
      typeOk p.2 = true)
    ∧ ((setField false [("T", ⟨"T", .Text, [], false, none⟩),
        ("B", ⟨"B", .Boolean, [], false, some (.boolean true)⟩)] "T" (.intVal 3)).1.isSome = true →
      (setField false [("T", ⟨"T", .Text, [], false, none⟩),
        ("B", ⟨"B", .Boolean, [], false, some (.boolean true)⟩)] "T" (.intVal 3)).2 =
        [("T", ⟨"T", .Text, [], false, none⟩),
         ("B", ⟨"B", .Boolean, [], false, some (.boolean true)⟩)]) :=
  ⟨(setField_preserves_invariant false [("T", ⟨"T", .Text, [], false, none⟩),
      ("B", ⟨"B", .Boolean, [], false, some (.boolean true)⟩)] "T" (.str "x")
      (by decide)).1,
   (setField_preserves_invariant false [("T", ⟨"T", .Text, [], false, none⟩),
      ("B", ⟨"B", .Boolean, [], false, some (.boolean true)⟩)] "T" (.intVal 3)
      (by decide)).2⟩

/-! ### Batch field setting (C1) -/

theorem goContains_iff (hay needle : String) :
    goContains hay needle = true ↔ needle.data <:+: hay.data := by
  unfold goContains
  rw [List.any_eq_true]
  constructor
  · rintro ⟨t, ht, hp⟩
    exact List.infix_iff_prefix_suffix.mpr
      ⟨t, List.isPrefixOf_iff_prefix.mp hp, (List.mem_tails _ _).mp ht⟩
  · intro h
    obtain ⟨t, hp, hs⟩ := List.infix_iff_prefix_suffix.mp h
    exact ⟨t, (List.mem_tails _ _).mpr hs, List.isPrefixOf_iff_prefix.mpr hp⟩

theorem mem_joinSep_infix (sep x : String) (l : List String) (h : x ∈ l) :
    x.data <:+: (joinSep sep l).data := by
  induction l with
  | nil => simp at h
  | cons a t ih =>
    rcases List.mem_cons.mp h with rfl | hx
    · cases t with
      | nil => exact List.infix_refl _
      | cons b t' =>
        show x.data <:+: (x ++ sep ++ joinSep sep (b :: t')).data
        refine ⟨[], (sep ++ joinSep sep (b :: t')).data, ?_⟩
        simp [String.data_append]
    · cases t with
      | nil => simp at hx
      | cons b t' =>
        refine (ih hx).trans ?_
        show (joinSep sep (b :: t')).data <:+: (a ++ sep ++ joinSep sep (b :: t')).data
        refine List.IsSuffix.isInfix ?_
        rw [String.data_append]
        exact List.suffix_append _ _

theorem htmlSetFieldsAux_fst (vos : Bool) (r0 : Registry) (pairs : List (String × GoValue)) :
    ∀ (r : Registry) (errs : List String),
      (∀ m, fieldShapeAt r m = fieldShapeAt r0 m) →
      (htmlSetFieldsAux vos r pairs errs).1 =
        errs ++ pairs.filterMap (fun p => ((setField vos r0 p.1 p.2).1).map
          (fun e => "field '" ++ p.1 ++ "': " ++ e)) := by
  induction pairs with
  | nil =>
    intro r errs _
    simp [htmlSetFieldsAux]
  | cons p rest ih =>
    intro r errs hsh
    obtain ⟨pn, pv⟩ := p
    cases hq : setField vos r pn pv with
    | mk e1 r1 =>
      have hfst : e1 = (setField vos r0 pn pv).1 := by
        rw [setField_fst_eq vos r0 pn pv, ← hsh pn, ← setField_fst_eq vos r pn pv, hq]
      have hsh' : ∀ m, fieldShapeAt r1 m = fieldShapeAt r0 m := by
        intro m
        have hx := setField_preserves_shape vos r pn pv m
        rw [hq] at hx
        exact hx.trans (hsh m)
      cases he : (setField vos r0 pn pv).1 with
      | none =>
        rw [he] at hfst
        subst hfst
        simp only [htmlSetFieldsAux, hq]
        rw [ih r1 errs hsh', List.filterMap_cons]
        simp [he]
      | some e =>
        rw [he] at hfst
        subst hfst
        simp only [htmlSetFieldsAux, hq]
        rw [ih r1 (errs ++ ["field '" ++ pn ++ "': " ++ e]) hsh', List.filterMap_cons]
        simp [he]

theorem htmlSetFields_fst (vos : Bool) (r : Registry) (pairs : List (String × GoValue)) :
    (htmlSetFields vos r pairs).1 =
      (if (pairs.filterMap (fun p => ((setField vos r p.1 p.2).1).map
          (fun e => "field '" ++ p.1 ++ "': " ++ e))).isEmpty then none
       else some ("failed to set some fields: " ++
         joinSep "; " (pairs.filterMap (fun p => ((setField vos r p.1 p.2).1).map
           (fun e => "field '" ++ p.1 ++ "': " ++ e))))) := by
  cases hq : htmlSetFieldsAux vos r pairs [] with
  | mk errs r' =>
    have h : errs = pairs.filterMap (fun p => ((setField vos r p.1 p.2).1).map
        (fun e => "field '" ++ p.1 ++ "': " ++ e)) := by
      have h0 := htmlSetFieldsAux_fst vos r pairs r [] (fun m => rfl)
      rw [hq] at h0
      simpa using h0
    simp only [htmlSetFields, hq]
    rw [h]
    split <;> rfl

theorem pdfSetFields_fst_none_iff (vos : Bool) (r0 : Registry) :
    ∀ (pairs : List (String × GoValue)) (r : Registry),
      (∀ m, fieldShapeAt r m = fieldShapeAt r0 m) →
      ((pdfSetFields vos r pairs).1 = none ↔
        ∀ p ∈ pairs, (setField vos r0 p.1 p.2).1 = none) := by
  intro pairs
  induction pairs with
  | nil =>
    intro r _
    simp [pdfSetFields]
  | cons p rest ih =>
    intro r hsh
    obtain ⟨pn, pv⟩ := p
    cases hq : setField vos r pn pv with
    | mk e1 r1 =>
      have hfst : e1 = (setField vos r0 pn pv).1 := by
        rw [setField_fst_eq vos r0 pn pv, ← hsh pn, ← setField_fst_eq vos r pn pv, hq]
      have hsh' : ∀ m, fieldShapeAt r1 m = fieldShapeAt r0 m := by
        intro m
        have hx := setField_preserves_shape vos r pn pv m
        rw [hq] at hx
        exact hx.trans (hsh m)
      cases e1 with
      | some e =>
        simp only [pdfSetFields, hq]
        refine iff_of_false (by simp) (fun hall => ?_)
        exact Option.noConfusion (hfst.trans (hall (pn, pv) (List.mem_cons_self _ _)))
      | none =>
        simp only [pdfSetFields, hq]
        rw [ih r1 hsh']
        constructor
        · intro hall p hp
          rcases List.mem_cons.mp hp with rfl | hp'
          · exact hfst.symm
          · exact hall p hp'
        · intro hall p hp
          exact hall p (by simp [hp])

theorem pdfSetFields_fst_first_error (vos : Bool) (r0 : Registry) (n : String)
    (v : GoValue) (e : String) (rest : List (String × GoValue)) :
    ∀ (pre : List (String × GoValue)) (r : Registry),
      (∀ m, fieldShapeAt r m = fieldShapeAt r0 m) →
      (∀ q ∈ pre, (setField vos r0 q.1 q.2).1 = none) →
      (setField vos r0 n v).1 = some e →
      (pdfSetFields vos r (pre ++ (n, v) :: rest)).1 =
        some ("error setting field " ++ n ++ ": " ++ e) := by
  intro pre
  induction pre with
  | nil =>
    intro r hsh _ he
    cases hq : setField vos r n v with
    | mk e1 r1 =>
      have hfst : e1 = (setField vos r0 n v).1 := by
        rw [setField_fst_eq vos r0 n v, ← hsh n, ← setField_fst_eq vos r n v, hq]
      rw [he] at hfst
      subst hfst
      simp [pdfSetFields, hq]
  | cons q pre' ih =>
    intro r hsh hpre he
    obtain ⟨qn, qv⟩ := q
    cases hq : setField vos r qn qv with
    | mk e1 r1 =>
      have hfst : e1 = (setField vos r0 qn qv).1 := by
        rw [setField_fst_eq vos r0 qn qv, ← hsh qn, ← setField_fst_eq vos r qn qv, hq]
      rw [hpre (qn, qv) (List.mem_cons_self _ _)] at hfst
      subst hfst
      have hsh' : ∀ m, fieldShapeAt r1 m = fieldShapeAt r0 m := by
        intro m
        have hx := setField_preserves_shape vos r qn qv m
        rw [hq] at hx
        exact hx.trans (hsh m)
      simp only [List.cons_append, pdfSetFields, hq]
      exact ih r1 hsh' (fun q2 hq2 => hpre q2 (by simp [hq2])) he

/-- C1, corrected: only the HTML batch setter aggregates.  `HTMLForm.SetFields`
returns nil exactly when every pair sets cleanly and otherwise one combined
error that mentions every failing pair's name and per-pair message, whereas
`PDFForm.SetFields` also returns nil exactly when every pair succeeds but
stops at the first failing pair in processing order and reports only that
pair's wrapped error. -/
theorem setFields_aggregation (vos : Bool) (r : Registry) (pairs : List (String × GoValue)) :
    ((htmlSetFields vos r pairs).1 = none ↔
      ∀ p ∈ pairs, (setField vos r p.1 p.2).1 = none)
    ∧ (∀ p ∈ pairs, ∀ e, (setField vos r p.1 p.2).1 = some e →
        ∃ s, (htmlSetFields vos r pairs).1 = some s ∧
          goContains s p.1 = true ∧ goContains s e = true)
    ∧ ((pdfSetFields vos r pairs).1 = none ↔
      ∀ p ∈ pairs, (setField vos r p.1 p.2).1 = none)
    ∧ (∀ pre n v e rest, pairs = pre ++ (n, v) :: rest →
        (∀ q ∈ pre, (setField vos r q.1 q.2).1 = none) →
        (setField vos r n v).1 = some e →
        (pdfSetFields vos r pairs).1 =
          some ("error setting field " ++ n ++ ": " ++ e)) := by
  have hiff : (pairs.filterMap (fun p => ((setField vos r p.1 p.2).1).map
      (fun e => "field '" ++ p.1 ++ "': " ++ e))).isEmpty = true ↔
      ∀ p ∈ pairs, (setField vos r p.1 p.2).1 = none := by
    rw [List.isEmpty_iff, List.filterMap_eq_nil_iff]
    simp only [Option.map_eq_none']
  refine ⟨?_, ?_, ?_, ?_⟩
  · rw [htmlSetFields_fst]
    by_cases hemp : (pairs.filterMap (fun p => ((setField vos r p.1 p.2).1).map
        (fun e => "field '" ++ p.1 ++ "': " ++ e))).isEmpty = true
    · rw [if_pos hemp]
      exact iff_of_true rfl (hiff.mp hemp)
    · rw [if_neg hemp]
      exact iff_of_false (by simp) (fun hall => hemp (hiff.mpr hall))
  · intro p hp e he
    have hentry : ("field '" ++ p.1 ++ "': " ++ e) ∈
        pairs.filterMap (fun p => ((setField vos r p.1 p.2).1).map
          (fun e => "field '" ++ p.1 ++ "': " ++ e)) :=
      List.mem_filterMap.mpr ⟨p, hp, by rw [he]; rfl⟩
    have hne : ¬ (pairs.filterMap (fun p => ((setField vos r p.1 p.2).1).map
        (fun e => "field '" ++ p.1 ++ "': " ++ e))).isEmpty = true := by
      rw [List.isEmpty_iff]
      exact List.ne_nil_of_mem hentry
    refine ⟨"failed to set some fields: " ++ joinSep "; "
        (pairs.filterMap (fun p => ((setField vos r p.1 p.2).1).map
          (fun e => "field '" ++ p.1 ++ "': " ++ e))), ?_, ?_, ?_⟩
    · rw [htmlSetFields_fst, if_neg hne]
    · rw [goContains_iff]
      have h1 : p.1.data <:+: ("field '" ++ p.1 ++ "': " ++ e).data := by
        refine ⟨"field '".data, ("': " ++ e).data, ?_⟩
        simp [String.data_append]
      have h2 := mem_joinSep_infix "; " _ _ hentry
      have h3 : (joinSep "; " (pairs.filterMap (fun p => ((setField vos r p.1 p.2).1).map
          (fun e => "field '" ++ p.1 ++ "': " ++ e)))).data <:+
          ("failed to set some fields: " ++ joinSep "; "
            (pairs.filterMap (fun p => ((setField vos r p.1 p.2).1).map
              (fun e => "field '" ++ p.1 ++ "': " ++ e)))).data := by
        rw [String.data_append]
        exact List.suffix_append _ _
      exact (h1.trans h2).trans h3.isInfix
    · rw [goContains_iff]
      have h1 : e.data <:+: ("field '" ++ p.1 ++ "': " ++ e).data := by
        refine List.IsSuffix.isInfix ?_
        rw [String.data_append]
        exact List.suffix_append _ _
      have h2 := mem_joinSep_infix "; " _ _ hentry
      have h3 : (joinSep "; " (pairs.filterMap (fun p => ((setField vos r p.1 p.2).1).map
          (fun e => "field '" ++ p.1 ++ "': " ++ e)))).data <:+
          ("failed to set some fields: " ++ joinSep "; "
            (pairs.filterMap (fun p => ((setField vos r p.1 p.2).1).map
              (fun e => "field '" ++ p.1 ++ "': " ++ e)))).data := by
        rw [String.data_append]
        exact List.suffix_append _ _
      exact (h1.trans h2).trans h3.isInfix
  · exact pdfSetFields_fst_none_iff vos r pairs r (fun m => rfl)
  · intro pre n v e rest hsplit hpre he
    subst hsplit
    exact pdfSetFields_fst_first_error vos r n v e rest pre r (fun m => rfl) hpre he

/-- C1, counterexample: on a registry whose only field "Y" is Text, the batch
with the two failing pairs X (unknown field) and Y (boolean against Text),
`PDFForm.SetFields` reports only the first failure and its error never
mentions the other failing pair's name Y. -/
theorem pdfSetFields_not_aggregating_cx :
    ((setField false [("Y", ⟨"Y", .Text, [], false, none⟩)] "X" (.str "v")).1).isSome = true
    ∧ ((setField false [("Y", ⟨"Y", .Text, [], false, none⟩)] "Y" (.boolean true)).1).isSome
      = true
    ∧ (pdfSetFields false [("Y", ⟨"Y", .Text, [], false, none⟩)]
        [("X", .str "v"), ("Y", .boolean true)]).1 =
      some "error setting field X: field X not found in form"
    ∧ goContains "error setting field X: field X not found in form" "Y" = false := by
  decide

/-- C1 witness: the amended theorem's HTML aggregation part applied to a
concrete batch with two failing pairs. -/
theorem setFields_aggregation_witness :
    ∃ s, (htmlSetFields false [("Y", ⟨"Y", .Text, [], false, none⟩)]
        [("X", .str "v"), ("Y", .boolean true)]).1 = some s
      ∧ goContains s "Y" = true ∧ goContains s "field Y requires string value" = true :=
  (setFields_aggregation false [("Y", ⟨"Y", .Text, [], false, none⟩)]
      [("X", .str "v"), ("Y", .boolean true)]).2.1 ("Y", .boolean true) (by decide)
      "field Y requires string value" (by decide)

/-! ### Upload client theorems -/

/-- C3: whenever the HTTP round trip answers an upload with status 401, the
operation fails with an HTTPError of status 401 whose human-readable message
is the fixed text "Authentication failed: Bearer token is invalid or expired"
(the spec renders it as "authentication failed — token invalid or expired"),
for every possible response body and every behaviour of the JSON error-body
parser; the extracted body message is stored but never shown for this status. -/
theorem httpUpload_401_fixed_message (baseURL bearerToken : String) (c : UploadConfig)
    (send : UploadRequest → Nat × String)
    (parseErrBody : String → Option (String × String))
    (decodeResponse : String → Option UploadResponse)
    (hvalid : uploadConfigValidate c = none)
    (hstatus : (send ⟨buildUploadURL baseURL c, "Bearer " ++ bearerToken⟩).1 = 401) :
    ∃ e, httpUpload baseURL bearerToken c send parseErrBody decodeResponse =
        .error (.httpErr e)
      ∧ e.statusCode = 401
      ∧ e.errorString = "Authentication failed: Bearer token is invalid or expired" := by
  simp only [httpUpload, hvalid]
  cases hs : send ⟨buildUploadURL baseURL c, "Bearer " ++ bearerToken⟩ with
  | mk status respBody =>
    rw [hs] at hstatus
    simp only at hstatus
    subst hstatus
    dsimp only
    refine ⟨⟨401, errorMessageOf respBody parseErrBody⟩, ?_, rfl, rfl⟩
    rw [if_pos (by decide : (401 : Nat) ≠ 200 ∧ (401 : Nat) ≠ 201)]

/-- C3 witness: a mock transport answering 401 with an arbitrary body yields
the fixed authentication-failure text. -/
theorem httpUpload_401_witness :
    ∃ e, httpUpload "https://u" "t" ⟨"f.pdf", "org", "br", "me"⟩
        (fun _ => (401, "some irrelevant response body")) (fun _ => none) (fun _ => none) =
        .error (.httpErr e)
      ∧ e.statusCode = 401
      ∧ e.errorString = "Authentication failed: Bearer token is invalid or expired" :=
  httpUpload_401_fixed_message "https://u" "t" ⟨"f.pdf", "org", "br", "me"⟩
    (fun _ => (401, "some irrelevant response body")) (fun _ => none) (fun _ => none)
    (by decide) rfl

/-- C3, counterexample: the fixed 401 text the code produces is
"Authentication failed: Bearer token is invalid or expired", not the claim's
quoted "authentication failed — token invalid or expired"; at a concrete 401
response the produced error's human-readable text differs from the quoted
string (while the fixed-text-regardless-of-body property itself holds). -/
theorem httpUpload_401_message_cx :
    httpUpload "https://u" "t" ⟨"f.pdf", "org", "br", "me"⟩
        (fun _ => (401, "body")) (fun _ => none) (fun _ => none) =
      .error (.httpErr ⟨401, "body"⟩)
    ∧ HTTPError.errorString ⟨401, "body"⟩ ≠
        "authentication failed — token invalid or expired" := by
  constructor
  · rfl
  · decide

/-- C8: metadata validation succeeds exactly when all four metadata strings
are non-empty, and on any validation failure the upload terminates with the
invalid-configuration error whose outcome is independent of the transport and
the JSON codec — no request is consulted. -/
theorem httpUpload_validates_metadata_first (baseURL bearerToken : String)
    (c : UploadConfig) :
    (uploadConfigValidate c = none ↔
      (c.fileName ≠ "" ∧ c.organizationalID ≠ "" ∧ c.branchID ≠ "" ∧ c.createdBy ≠ ""))
    ∧ (uploadConfigValidate c ≠ none →
      ∀ (send send' : UploadRequest → Nat × String)
        (parseErrBody parseErrBody' : String → Option (String × String))
        (decodeResponse decodeResponse' : String → Option UploadResponse),
        httpUpload baseURL bearerToken c send parseErrBody decodeResponse =
          httpUpload baseURL bearerToken c send' parseErrBody' decodeResponse'
        ∧ ∃ msg, httpUpload baseURL bearerToken c send parseErrBody decodeResponse =
            .error (.invalidConfig msg)) := by
  constructor
  · unfold uploadConfigValidate
    split_ifs <;> simp_all
  · intro hne send send' p p' d d'
    cases hv : uploadConfigValidate c with
    | none => exact absurd hv hne
    | some m =>
      simp only [httpUpload, hv]
      exact ⟨trivial, m, rfl⟩

/-- C8 witness: empty fileName metadata fails identically under two different
transports, with the invalid-configuration error. -/
theorem httpUpload_validates_metadata_witness :
    httpUpload "https://u" "t" ⟨"", "org", "br", "me"⟩
        (fun _ => (200, "a")) (fun _ => none) (fun _ => none) =
      httpUpload "https://u" "t" ⟨"", "org", "br", "me"⟩
        (fun _ => (500, "b")) (fun _ => none) (fun _ => none)
    ∧ ∃ msg, httpUpload "https://u" "t" ⟨"", "org", "br", "me"⟩
        (fun _ => (200, "a")) (fun _ => none) (fun _ => none) =
      .error (.invalidConfig msg) :=
  (httpUpload_validates_metadata_first "https://u" "t" ⟨"", "org", "br", "me"⟩).2
    (by decide) (fun _ => (200, "a")) (fun _ => (500, "b"))
    (fun _ => none) (fun _ => none) (fun _ => none) (fun _ => none)

end GoPdfFiller
